import Mathlib

/-!
Verification development for the AI resume analyzer repository.

The definitions below are a shallow embedding of the repository's code:

* `Json`, `getField`      — the value space of `JSON.parse` and JavaScript
                            property access, as used by the service layer.
* `analyzeResume`         — the response handling of `analyzeResume` in the
                            gemini service (validation of the parsed reply and
                            the surrounding try/catch).
* `extractCandidateName`  — the response handling of `extractCandidateName`.
* `ResumeRec`, `updateById`, `processBatchRun`, `handleAnalyze`, … — the
                            record lifecycle and the two batch stages of
                            `App.tsx` (parsing effect and analysis handler).
* `handleUrlsAdd`, `handleJdUrlAdd` — the URL ingestion error paths.
* `dedupNames`, `resolveDisplayName` — the name resolver described by the
                            spec (no caller of `extractCandidateName` and no
                            de-duplication pass exist in the sources, so these
                            are modelled from the spec, as marked).

Asynchronous calls are represented by outcome oracles: a value describing
what the awaited operation produced (success value, rejection, unparseable
reply), so that each code path is a total function of those outcomes.
-/

/-- JSON values as produced by `JSON.parse`: null, booleans, numbers
(JSON numbers are finite decimals, embedded in `Rat`), strings, arrays
and objects (field lists; duplicate keys are allowed, the last one wins,
as in JavaScript). -/
inductive Json where
  | null
  | bool (b : Bool)
  | num (q : Rat)
  | str (s : String)
  | arr (elems : List Json)
  | obj (fields : List (String × Json))

/-- JavaScript property access `v.key` on a parsed JSON value, with `none`
playing the role of `undefined`.  On an object literal the last binding of
the key wins (`JSON.parse` keeps the last duplicate).  On any non-object
the access yields `undefined` (for `null` the real code throws instead, but
the surrounding try/catch maps that throw to the same failure result as a
failed validation, so the caller-observable behaviour is identical). -/
def getField (j : Json) (key : String) : Option Json :=
  match j with
  | .obj fields => fields.foldl (fun acc p => if p.1 = key then some p.2 else acc) none
  | _ => none

/-- `typeof v === 'number'` after a field access. -/
def isNumV : Option Json → Bool
  | some (.num _) => true
  | _ => false

/-- `typeof v === 'string'` after a field access. -/
def isStrV : Option Json → Bool
  | some (.str _) => true
  | _ => false

/-- `Array.isArray(v)` after a field access. -/
def isArrV : Option Json → Bool
  | some (.arr _) => true
  | _ => false

/-- The allowed recommendation literals of the analysis schema. -/
def allowedRecommendations : List String := ["Strong Hire", "Consider", "Reject"]

/-- `['Strong Hire', 'Consider', 'Reject'].includes(v)`: true exactly when the
accessed field is one of the three string literals. -/
def recAllowed : Option Json → Bool
  | some (.str s) => allowedRecommendations.contains s
  | _ => false

/-- The shape validation of `analyzeResume` (gemini service): the negation of
the `if` that throws `'Received malformed data from API.'`. -/
def validAnalysisShape (j : Json) : Bool :=
  isNumV (getField j "relevancyScore") &&
  recAllowed (getField j "recommendation") &&
  isStrV (getField j "summary") &&
  isArrV (getField j "pros") &&
  isArrV (getField j "cons") &&
  isArrV (getField j "redFlags") &&
  isStrV (getField j "finalVerdict") &&
  isArrV (getField j "interviewQuestions")

/-- What the awaited part of `analyzeResume` produced:
the API call rejected, the reply text failed `JSON.parse`, or it parsed to a
JSON value. -/
inductive ApiReply where
  | apiFailure
  | unparseable
  | parsed (j : Json)

/-- The message of the error thrown to `analyzeResume`'s caller by its catch
block, for every failure inside the try. -/
def analysisFailureMessage : String :=
  "Failed to get analysis from AI. Please check the console for more details."

/-- `analyzeResume` (gemini service) from the point the awaited call settles:
a rejected call or an unparseable reply throws inside the try; a parsed reply
failing the shape validation throws `'Received malformed data from API.'`;
the catch block replaces any of these throws by the fixed
`analysisFailureMessage`; a valid reply is returned unchanged
(`return parsedResult as AnalysisResult` is a type cast, not a conversion). -/
def analyzeResume (reply : ApiReply) : Except String Json :=
  match reply with
  | .apiFailure => .error analysisFailureMessage
  | .unparseable => .error analysisFailureMessage
  | .parsed j =>
      if validAnalysisShape j then .ok j else .error analysisFailureMessage

/-- Outcome of the awaited part of `extractCandidateName`. -/
inductive NameApiReply where
  | apiFailure
  | unparseable
  | parsed (j : Json)

/-- The message of the error thrown by `extractCandidateName`'s catch block. -/
def nameFailureMessage : String := "Failed to extract candidate name from resume."

/-- `extractCandidateName` (gemini service) from the point the awaited call
settles: returns `fullName` when it is a non-empty string; otherwise throws
(`'Full name not found or is invalid.'` inside the try), and the catch block
replaces every failure by the fixed `nameFailureMessage`. -/
def extractCandidateName (reply : NameApiReply) : Except String String :=
  match reply with
  | .apiFailure => .error nameFailureMessage
  | .unparseable => .error nameFailureMessage
  | .parsed j =>
      match getField j "fullName" with
      | some (.str s) => if s.length > 0 then .ok s else .error nameFailureMessage
      | _ => .error nameFailureMessage

/-! ### Name resolver (spec-modelled parts)

The sources contain `extractCandidateName` but no caller: the fallback to the
filename and the batch de-duplication pass described by the spec are not under
`src/`.  They are modelled from the spec below and clearly marked as such. -/

/-- Modelled from the spec: the caller of `extractCandidateName` is missing
from the sources; per spec §4.2, "on any failure (network, malformed
response, empty name), fall back silently to the original filename — this is
a non-fatal degradation, not a pipeline failure". -/
def resolveDisplayName (extraction : Except String String) (filename : String) : String :=
  match extraction with
  | .ok name => name
  | .error _ => filename

/-- Decimal digits of `n`, most significant first, computed with a fuel
argument so that the definition is structural and evaluates by reduction
(`digitsGo (n+1) n` always has enough fuel). -/
def digitsGo : Nat → Nat → List Nat
  | 0, _ => []
  | fuel + 1, n => if n < 10 then [n] else digitsGo fuel (n / 10) ++ [n % 10]

/-- Decimal digits of `n`, most significant first. -/
def natDigits (n : Nat) : List Nat := digitsGo (n + 1) n

/-- The character of a decimal digit (`0 ↦ '0'`, …, `9 ↦ '9'`). -/
def digitChar (d : Nat) : Char := Char.ofNat (48 + d)

/-- Decimal rendering of a natural number, as JavaScript template
interpolation of a counter renders it. -/
def natToDecimal (n : Nat) : String := ⟨(natDigits n).map digitChar⟩

/-- Value of a digit list, most significant first. -/
def digitsVal (l : List Nat) : Nat := l.foldl (fun a d => 10 * a + d) 0

/-- Modelled from the spec: the candidate display name with a parenthesized
counter appended (`"Jane Doe (1)"`, `"Jane Doe (2)"`, …). -/
def addCounter (base : String) (k : Nat) : String :=
  base ++ " (" ++ natToDecimal k ++ ")"

/-- Modelled from the spec: try counters `k, k+1, …` until the counted name
is not yet seen; `fuel` bounds the search so the definition is structural
(callers pass fuel `seen.length + 1`, which always suffices). -/
def firstFresh (seen : List String) (base : String) : Nat → Nat → String
  | 0, k => addCounter base k
  | fuel + 1, k =>
      if seen.contains (addCounter base k) then firstFresh seen base fuel (k + 1)
      else addCounter base k

/-- Modelled from the spec: resolve one display name against the names already
seen — keep it if unseen, otherwise append a counter in parentheses until
unique (spec §4.2). -/
def resolveDedup (seen : List String) (name : String) : String :=
  if seen.contains name then firstFresh seen name (seen.length + 1) 1 else name

/-- Modelled from the spec: the de-duplication pass over the resolved names of
a batch — process candidates in order, resolve each against the names already
seen, then record the resolved name as seen. -/
def dedupGo (seen : List String) : List String → List String
  | [] => []
  | name :: rest =>
      let r := resolveDedup seen name
      r :: dedupGo (seen ++ [r]) rest

/-- Modelled from the spec: de-duplicate a batch of display names. -/
def dedupNames (names : List String) : List String := dedupGo [] names

/-! ### Resume records and the batch orchestrator (`App.tsx`) -/

/-- `FileStatus` of `App.tsx`. -/
inductive FileStatus where
  | queued
  | parsing
  | ready
  | analyzing
  | done
  | error
deriving DecidableEq, Repr

/-- `ResumeFile` of `App.tsx` (the `file` handle itself is represented by the
record's `id`; the extraction and analysis oracles are keyed on it). -/
structure ResumeRec where
  id : String
  status : FileStatus
  text : String
  candidateName : String
  error : Option String := none
deriving DecidableEq, Repr

/-- `BATCH_SIZE` of `App.tsx`. -/
def BATCH_SIZE : Nat := 5

/-- `updateResumeStatus` of `App.tsx`: replace every record whose `id`
matches by its patched version (ids are unique in practice, see
`addResumeFiles`). -/
def updateById (recs : List ResumeRec) (i : String) (f : ResumeRec → ResumeRec) :
    List ResumeRec :=
  recs.map (fun r => if r.id = i then f r else r)

/-- `recs.find(r => r.id === i)`: the first record with the given id. -/
def findById (recs : List ResumeRec) (i : String) : Option ResumeRec :=
  recs.find? (fun r => r.id = i)

/-- The error message of the duplicate-content branch of the parsing effect. -/
def duplicateMessage : String := "Duplicate content detected."

/-- One iteration of the `for (const resume of batch)` loop of the parsing
effect in `App.tsx`: mark the record `parsing`, await the extractor, then
either record the extraction failure, or check the extracted text against
`resumes` — the effect's closed-over snapshot, not the updated state — and
mark the record `error` (duplicate) or `ready`.  `extract` gives the settled
result of `readPdfAsText`/`readFileAsText` for the record's file. -/
def parseOneStep (snapshot : List ResumeRec) (extract : String → Except String String)
    (recs : List ResumeRec) (r : ResumeRec) : List ResumeRec :=
  let recs1 := updateById recs r.id (fun x => { x with status := .parsing })
  match extract r.id with
  | .error m => updateById recs1 r.id (fun x => { x with status := .error, error := some m })
  | .ok text =>
      let isDuplicate := snapshot.any (fun o => o.id ≠ r.id && o.text ≠ "" && o.text = text)
      if isDuplicate then
        updateById recs1 r.id (fun x => { x with status := .error, error := some duplicateMessage })
      else
        updateById recs1 r.id (fun x => { x with text := text, status := .ready })

/-- The per-record result of `parseOneStep` on a record of the batch (same
branches, expressed as a single patch of the record). -/
def parseResult (snapshot : List ResumeRec) (extract : String → Except String String)
    (r : ResumeRec) : ResumeRec :=
  match extract r.id with
  | .error m => { r with status := .error, error := some m }
  | .ok text =>
      if snapshot.any (fun o => o.id ≠ r.id && o.text ≠ "" && o.text = text) then
        { r with status := .error, error := some duplicateMessage }
      else
        { r with text := text, status := .ready }

/-- One run of `processBatch` from the parsing `useEffect` of `App.tsx`:
take the first `BATCH_SIZE` queued records of the effect's snapshot and
process them sequentially, in array order, starting from that snapshot
state.  The duplicate check inside each step consults the same snapshot
(the effect's stale closure), not the accumulated state. -/
def processBatchRun (snapshot : List ResumeRec) (extract : String → Except String String) :
    List ResumeRec :=
  let queued := snapshot.filter (fun r => r.status = .queued)
  let batch := queued.take BATCH_SIZE
  batch.foldl (parseOneStep snapshot extract) snapshot

/-- The settled value of one `analyzeResume` call in `handleAnalyze`:
`fulfilled` carries the result (whose `candidateName` the handler reads);
`rejected` carries the rejection reason's message when the reason is an
`Error` (`none` models a non-`Error` reason, for which the handler
substitutes `'Analysis failed.'`). -/
inductive AnalysisOutcome where
  | fulfilled (value : Json)
  | rejected (reason : Option String)

/-- `value.candidateName` as the handler reads it off a fulfilled result:
the string field of the cast result object, or the empty string when absent
(the analysis schema does not require `candidateName`; reading it off the
cast then yields `undefined`, rendered here as `""`). -/
def valueName (v : Json) : String :=
  match getField v "candidateName" with
  | some (.str s) => s
  | _ => ""

/-- State of the analysis handler: the record set (`resumes`) and the
aggregated result list (`analysisResults`, as `(name, result)` pairs). -/
structure OrchState where
  recs : List ResumeRec
  results : List (String × Json)

/-- Records with status `ready`: `resumes.filter(r => r.status === 'ready')`. -/
def readyOf (recs : List ResumeRec) : List ResumeRec :=
  recs.filter (fun r => r.status = .ready)

/-- Chunking of `handleAnalyze`'s loop
(`for (let i = 0; i < n; i += BATCH_SIZE) slice(i, i + BATCH_SIZE)`):
consecutive chunks of at most `BATCH_SIZE = 5`. -/
def chunksOf : List ResumeRec → List (List ResumeRec)
  | [] => []
  | [a] => [[a]]
  | [a, b] => [[a, b]]
  | [a, b, c] => [[a, b, c]]
  | [a, b, c, d] => [[a, b, c, d]]
  | a :: b :: c :: d :: e :: rest => [a, b, c, d, e] :: chunksOf rest

/-- The patch applied to a record by the success branch of the batch loop:
`{ status: 'done', candidateName: r.value.candidateName }`. -/
def applySuccess (v : Json) (r : ResumeRec) : ResumeRec :=
  { r with status := .done, candidateName := valueName v }

/-- The patch applied to a record by the failure branch of the batch loop:
`{ status: 'error', error: message }`. -/
def applyFailure (reason : Option String) (r : ResumeRec) : ResumeRec :=
  { r with status := .error, error := some (reason.getD "Analysis failed.") }

/-- The `(name, result)` pairs a batch contributes to `analysisResults`:
its fulfilled outcomes in batch order. -/
def successResults (outcome : ResumeRec → AnalysisOutcome) (batch : List ResumeRec) :
    List (String × Json) :=
  batch.filterMap (fun r =>
    match outcome r with
    | .fulfilled v => some (valueName v, v)
    | .rejected _ => none)

/-- One iteration of the batch loop of `handleAnalyze`: all calls of the
batch are issued and every one settles (`Promise.all` over promises that
catch their own rejection); the fulfilled outcomes mark their records `done`,
the rejected ones mark theirs `error` with the reason's message, and the
batch's successful results are appended to `analysisResults`. -/
def processAnalysisBatch (outcome : ResumeRec → AnalysisOutcome) (st : OrchState)
    (batch : List ResumeRec) : OrchState :=
  let succ := batch.filterMap (fun r =>
    match outcome r with
    | .fulfilled v => some (r, v)
    | .rejected _ => none)
  let fail := batch.filterMap (fun r =>
    match outcome r with
    | .fulfilled _ => none
    | .rejected m => some (r, m))
  let recs1 := succ.foldl (fun recs p => updateById recs p.1.id (applySuccess p.2)) st.recs
  let recs2 := fail.foldl (fun recs p => updateById recs p.1.id (applyFailure p.2)) recs1
  { recs := recs2,
    results := st.results ++ succ.map (fun p => (valueName p.2, p.2)) }

/-- `resumesToAnalyze.forEach(r => updateResumeStatus(r.id, { status: 'analyzing' }))`. -/
def markAnalyzing (recs : List ResumeRec) (ready : List ResumeRec) : List ResumeRec :=
  ready.foldl (fun acc r => updateById acc r.id (fun x => { x with status := .analyzing })) recs

/-- The state in which `handleAnalyze`'s batch loop starts: all ready records
marked `analyzing`, `analysisResults` reset to `[]`. -/
def analysisInit (recs : List ResumeRec) : OrchState :=
  { recs := markAnalyzing recs (readyOf recs), results := [] }

/-- The handler state after the first `k` batches of the loop have run
(`k = 0` is the state in which the loop starts; the list of these states is
the evolution of `analysisResults`/`resumes` the presentation layer sees,
since each batch ends by appending its successes via `setAnalysisResults`). -/
def statesAfter (outcome : ResumeRec → AnalysisOutcome) (recs : List ResumeRec)
    (k : Nat) : OrchState :=
  ((chunksOf (readyOf recs)).take k).foldl (processAnalysisBatch outcome) (analysisInit recs)

/-- `handleAnalyze` of `App.tsx` from the point the ready records are chosen
(the guard for an empty selection or an empty job description returns early
and changes nothing): mark the selection `analyzing`, then run the batch
loop to completion.  `outcome` gives the settled result of
`analyzeResume(resume.text, jobDescriptionText)` per record. -/
def handleAnalyze (outcome : ResumeRec → AnalysisOutcome) (recs : List ResumeRec) :
    OrchState :=
  (chunksOf (readyOf recs)).foldl (processAnalysisBatch outcome) (analysisInit recs)

/-! ### Record-set operations and the lifecycle graph -/

/-- A file to ingest, as `addResumeFiles` sees it: the derived id
(`name-size-lastModified`) and the display name (the API-supplied name or
the filename). -/
structure NewFile where
  id : String
  name : String

/-- `addResumeFiles` of `App.tsx`: skip files whose id is already present,
create the rest as `queued` records with empty text and the given display
name, and append them. -/
def addResumeFiles (recs : List ResumeRec) (toAdd : List NewFile) : List ResumeRec :=
  recs ++ toAdd.filterMap (fun nf =>
    if recs.any (fun r => r.id = nf.id) then none
    else some { id := nf.id, status := .queued, text := "", candidateName := nf.name })

/-- `removeResume` of `App.tsx`. -/
def removeResume (recs : List ResumeRec) (i : String) : List ResumeRec :=
  recs.filter (fun r => r.id ≠ i)

/-- `clearResumes` of `App.tsx`. -/
def clearResumes (_recs : List ResumeRec) : List ResumeRec := []

/-- Terminal statuses of the record lifecycle. -/
def isTerminal : FileStatus → Bool
  | .done => true
  | .error => true
  | _ => false

/-- Reachability along the lifecycle graph
`queued → parsing → (ready | error)`, `ready → analyzing → (done | error)`
(reflexive-transitive closure of the edges). -/
def canReach : FileStatus → FileStatus → Bool
  | .queued, _ => true
  | .parsing, .queued => false
  | .parsing, _ => true
  | .ready, .queued => false
  | .ready, .parsing => false
  | .ready, _ => true
  | .analyzing, .analyzing => true
  | .analyzing, .done => true
  | .analyzing, .error => true
  | .analyzing, _ => false
  | .done, .done => true
  | .done, _ => false
  | .error, .error => true
  | .error, _ => false

/-! ### URL ingestion (`handleUrlsAdd`, `handleJdUrlAdd`) -/

/-- A thrown JavaScript error as the catch blocks inspect it: whether it is a
`TypeError` (a fetch rejected by the network/cross-origin layer throws
`TypeError: Failed to fetch`) and its `message`. -/
structure JsError where
  isTypeError : Bool
  message : String

/-- A character-list prefix test (used to model `String.includes`). -/
def isPre : List Char → List Char → Bool
  | [], _ => true
  | _ :: _, [] => false
  | a :: as, b :: bs => a = b && isPre as bs

/-- Whether `sub` occurs inside the character list. -/
def containsSub (sub : List Char) : List Char → Bool
  | [] => isPre sub []
  | c :: rest => isPre sub (c :: rest) || containsSub sub rest

/-- JavaScript `s.includes(sub)`. -/
def strIncludes (s sub : String) : Bool := containsSub sub.data s.data

/-- The CORS-specific message of `handleJdUrlAdd`. -/
def corsMessage : String := "Could not fetch the URL. This may be due to a CORS policy."

/-- The catch block of `handleJdUrlAdd`: start from the error's message, and
replace it by `corsMessage` when the error is a `TypeError` whose message
contains `'Failed to fetch'`. -/
def jdCatchMessage (e : JsError) : String :=
  if e.isTypeError && strIncludes e.message "Failed to fetch" then corsMessage
  else e.message

/-- How the awaited part of `handleJdUrlAdd` settled. -/
inductive JdFetchOutcome where
  | okText (text : String)
  | okBlobFail (e : JsError)
  | notOk (statusText : String)
  | fetchReject (e : JsError)

/-- The error message `handleJdUrlAdd` surfaces via `setError`
(`none` when the fetch and the blob read succeed): a non-success HTTP status
throws `Error('Failed to fetch from URL: {statusText}.')`; a rejection of
`fetch` itself or of the blob read reaches the catch block as thrown. -/
def handleJdUrlAdd : JdFetchOutcome → Option String
  | .okText _ => none
  | .okBlobFail e => some (jdCatchMessage e)
  | .notOk st => some (jdCatchMessage ⟨false, "Failed to fetch from URL: " ++ st ++ "."⟩)
  | .fetchReject e => some (jdCatchMessage e)

/-- How one URL of `handleUrlsAdd` settled: a fetched file (its derived
filename and the optional API-supplied candidate name), or the thrown error
of any failing step inside that URL's try block. -/
inductive ResumeFetchOutcome where
  | okFile (fileName : String) (apiName : Option String)
  | failure (e : JsError)

/-- One URL together with its settled outcome. -/
structure UrlItem where
  url : String
  outcome : ResumeFetchOutcome

/-- The per-URL loop of `handleUrlsAdd`: on success push
`{ file, name: candidateNameFromApi || fileName }`; on failure call
`setError('Failed to fetch {url}: {message}')` — with no cross-origin
special-casing — and continue with the next URL.  Returns the collected
files and the last surfaced error. -/
def handleUrlsAdd (items : List UrlItem) : List (String × String) × Option String :=
  items.foldl
    (fun acc item =>
      match item.outcome with
      | .okFile fn apiName => (acc.1 ++ [(fn, apiName.getD fn)], acc.2)
      | .failure e => (acc.1, some ("Failed to fetch " ++ item.url ++ ": " ++ e.message)))
    ([], none)

/-- The files `handleUrlsAdd` collects, expressed per item. -/
def okFilesOf (items : List UrlItem) : List (String × String) :=
  items.filterMap (fun item =>
    match item.outcome with
    | .okFile fn apiName => some (fn, apiName.getD fn)
    | .failure _ => none)

/-! ### Auxiliary forms of the update steps, and concrete fixtures -/

/-- The net patch a parsing-loop iteration applies to the state record of the
processed file (marking `parsing` and then overwriting the status is the
same as applying the final branch directly). -/
def parseNet (snapshot : List ResumeRec) (extract : String → Except String String)
    (r : ResumeRec) (x : ResumeRec) : ResumeRec :=
  match extract r.id with
  | .error m => { x with status := .error, error := some m }
  | .ok text =>
      if snapshot.any (fun o => o.id ≠ r.id && o.text ≠ "" && o.text = text) then
        { x with status := .error, error := some duplicateMessage }
      else
        { x with text := text, status := .ready }

/-- The net patch the analysis batch loop applies to a record, by its call's
outcome. -/
def applyOutcomePatch : AnalysisOutcome → ResumeRec → ResumeRec
  | .fulfilled v => applySuccess v
  | .rejected m => applyFailure m

/-- Whether an analysis call's outcome is a rejection. -/
def isRejected : AnalysisOutcome → Bool
  | .fulfilled _ => false
  | .rejected _ => true

/-- A parsed analysis reply that is valid except that `redFlags` is missing. -/
def jsonMissingRedFlags : Json :=
  .obj [("relevancyScore", .num 87), ("recommendation", .str "Consider"),
        ("summary", .str "fits"), ("pros", .arr []), ("cons", .arr []),
        ("finalVerdict", .str "ok"), ("interviewQuestions", .arr [])]

/-- A parsed analysis reply whose `recommendation` is outside the three
allowed literals. -/
def jsonBadRecommendation : Json :=
  .obj [("relevancyScore", .num 87), ("recommendation", .str "HIRE"),
        ("summary", .str "fits"), ("pros", .arr []), ("cons", .arr []),
        ("redFlags", .arr []), ("finalVerdict", .str "ok"),
        ("interviewQuestions", .arr [])]

/-- A parsed analysis reply that passes the shape validation with
`relevancyScore = 150`. -/
def jsonScore150 : Json :=
  .obj [("relevancyScore", .num 150), ("recommendation", .str "Consider"),
        ("summary", .str "fits"), ("pros", .arr []), ("cons", .arr []),
        ("redFlags", .arr []), ("finalVerdict", .str "ok"),
        ("interviewQuestions", .arr [])]

/-- A queued record as `addResumeFiles` creates it. -/
def queuedRec (i name : String) : ResumeRec :=
  { id := i, status := .queued, text := "", candidateName := name }

/-- A ready (parsed) record. -/
def readyRec (i name text : String) : ResumeRec :=
  { id := i, status := .ready, text := text, candidateName := name }

/-- Twelve ready records, for exercising the batching theorems. -/
def twelveReady : List ResumeRec :=
  [readyRec "r1" "n1" "t1", readyRec "r2" "n2" "t2", readyRec "r3" "n3" "t3",
   readyRec "r4" "n4" "t4", readyRec "r5" "n5" "t5", readyRec "r6" "n6" "t6",
   readyRec "r7" "n7" "t7", readyRec "r8" "n8" "t8", readyRec "r9" "n9" "t9",
   readyRec "r10" "n10" "t10", readyRec "r11" "n11" "t11",
   readyRec "r12" "n12" "t12"]

/-- An analysis oracle for the fixtures: record `r3` rejects, all others
fulfil with a result naming the record. -/
def fixtureOutcome (r : ResumeRec) : AnalysisOutcome :=
  if r.id = "r3" then .rejected (some "API quota exceeded")
  else .fulfilled (.obj [("candidateName", .str r.candidateName)])

/-- Snapshot for the duplicate-content scenario: two distinct queued files
(whose extraction will produce identical text) in one parsing batch. -/
def dupSnapshot : List ResumeRec :=
  [queuedRec "a.pdf-100-1" "a.pdf", queuedRec "b.pdf-200-2" "b.pdf"]

/-- Extraction oracle producing the same text for both files. -/
def dupExtract (_ : String) : Except String String := .ok "SAME RESUME TEXT"

/-- Snapshot where the first file was already parsed in an earlier batch
(its text is in the snapshot) and the second is still queued. -/
def dupSnapshotLater : List ResumeRec :=
  [readyRec "a.pdf-100-1" "a.pdf" "SAME RESUME TEXT", queuedRec "b.pdf-200-2" "b.pdf"]

/-! ## Lemmas and claim theorems -/

lemma isNumV_eq_true_iff (o : Option Json) : isNumV o = true ↔ ∃ q, o = some (.num q) := by
  cases o with
  | none => simp [isNumV]
  | some j => cases j <;> simp [isNumV]

lemma isStrV_eq_true_iff (o : Option Json) : isStrV o = true ↔ ∃ s, o = some (.str s) := by
  cases o with
  | none => simp [isStrV]
  | some j => cases j <;> simp [isStrV]

lemma isArrV_eq_true_iff (o : Option Json) : isArrV o = true ↔ ∃ l, o = some (.arr l) := by
  cases o with
  | none => simp [isArrV]
  | some j => cases j <;> simp [isArrV]

lemma recAllowed_eq_true_iff (o : Option Json) :
    recAllowed o = true ↔
      ∃ s, o = some (.str s) ∧ (s = "Strong Hire" ∨ s = "Consider" ∨ s = "Reject") := by
  cases o with
  | none => simp [recAllowed]
  | some j => cases j <;> simp [recAllowed, allowedRecommendations]

lemma validAnalysisShape_eq_true_iff (j : Json) :
    validAnalysisShape j = true ↔
      ((∃ q, getField j "relevancyScore" = some (.num q)) ∧
       (∃ s, getField j "recommendation" = some (.str s) ∧
          (s = "Strong Hire" ∨ s = "Consider" ∨ s = "Reject")) ∧
       (∃ s, getField j "summary" = some (.str s)) ∧
       (∃ l, getField j "pros" = some (.arr l)) ∧
       (∃ l, getField j "cons" = some (.arr l)) ∧
       (∃ l, getField j "redFlags" = some (.arr l)) ∧
       (∃ s, getField j "finalVerdict" = some (.str s)) ∧
       (∃ l, getField j "interviewQuestions" = some (.arr l))) := by
  rw [validAnalysisShape]
  simp only [Bool.and_eq_true, isNumV_eq_true_iff, isStrV_eq_true_iff, isArrV_eq_true_iff,
    recAllowed_eq_true_iff]
  aesop

/-- C1: a parsed analysis reply is returned (unchanged) exactly when the
score is a number, the recommendation is one of the three allowed literals,
summary and finalVerdict are strings, and pros, cons, redFlags and
interviewQuestions are arrays; any reply violating this shape — in
particular one missing `redFlags` or with an out-of-range recommendation —
is rejected as a malformed-response failure and never returned. -/
theorem C1_shape_validation_gate (j : Json) :
    ((∃ r, analyzeResume (.parsed j) = .ok r) ↔
      ((∃ q, getField j "relevancyScore" = some (.num q)) ∧
       (∃ s, getField j "recommendation" = some (.str s) ∧
          (s = "Strong Hire" ∨ s = "Consider" ∨ s = "Reject")) ∧
       (∃ s, getField j "summary" = some (.str s)) ∧
       (∃ l, getField j "pros" = some (.arr l)) ∧
       (∃ l, getField j "cons" = some (.arr l)) ∧
       (∃ l, getField j "redFlags" = some (.arr l)) ∧
       (∃ s, getField j "finalVerdict" = some (.str s)) ∧
       (∃ l, getField j "interviewQuestions" = some (.arr l)))) ∧
    (analyzeResume (.parsed j) = .ok j ∨
       analyzeResume (.parsed j) = .error analysisFailureMessage) ∧
    ((getField j "redFlags" = none ∨
        (∃ s, getField j "recommendation" = some (.str s) ∧
           s ≠ "Strong Hire" ∧ s ≠ "Consider" ∧ s ≠ "Reject")) →
      analyzeResume (.parsed j) = .error analysisFailureMessage) := by
  refine ⟨?_, ?_, ?_⟩
  · rw [← validAnalysisShape_eq_true_iff]
    constructor
    · rintro ⟨r, hr⟩
      by_contra hv
      simp [analyzeResume, Bool.not_eq_true] at hv
      simp [analyzeResume, hv] at hr
    · intro hv
      exact ⟨j, by simp [analyzeResume, hv]⟩
  · by_cases hv : validAnalysisShape j <;> simp [analyzeResume, hv]
  · intro h
    have hv : validAnalysisShape j = false := by
      by_contra hv
      simp only [Bool.not_eq_false] at hv
      rw [validAnalysisShape_eq_true_iff] at hv
      rcases h with h | ⟨s, hs, h1, h2, h3⟩
      · rcases hv.2.2.2.2.2.1 with ⟨l, hl⟩
        rw [h] at hl
        exact Option.noConfusion hl
      · rcases hv.2.1 with ⟨s2, hs2, hor⟩
        rw [hs] at hs2
        injection hs2 with h'
        injection h' with h''
        subst h''
        rcases hor with h' | h' | h' <;> simp_all
    simp [analyzeResume, hv]

/-- Witness for C1: a reply missing `redFlags` and a reply with the
out-of-range recommendation `"HIRE"` are both rejected with the
malformed-response failure. -/
theorem C1_shape_validation_gate_witness :
    analyzeResume (.parsed jsonMissingRedFlags) = .error analysisFailureMessage ∧
    analyzeResume (.parsed jsonBadRecommendation) = .error analysisFailureMessage :=
  ⟨(C1_shape_validation_gate jsonMissingRedFlags).2.2 (Or.inl rfl),
   (C1_shape_validation_gate jsonBadRecommendation).2.2
     (Or.inr ⟨"HIRE", rfl, by decide, by decide, by decide⟩)⟩

/-- C7 (counterexample): the code never checks the 0–100 range — a parsed
reply with `relevancyScore = 150` passes the shape validation and is
returned to the caller with its out-of-range score. -/
theorem C7_counterexample_score150 :
    analyzeResume (.parsed jsonScore150) = .ok jsonScore150 ∧
    getField jsonScore150 "relevancyScore" = some (.num 150) ∧
    ¬ ((0 : Rat) ≤ 150 ∧ (150 : Rat) ≤ 100) :=
  ⟨rfl, rfl, by norm_num⟩

/-- C7 (amended): every result `analyzeResume` returns has a numeric
`relevancyScore` (the type is validated), but the 0–100 range is only
requested from the API, never enforced by the code. -/
theorem C7_amended_numeric_score (j r : Json)
    (h : analyzeResume (.parsed j) = .ok r) :
    ∃ q, getField r "relevancyScore" = some (.num q) := by
  by_cases hv : validAnalysisShape j
  · simp only [analyzeResume, hv, if_true] at h
    injection h with h'
    subst h'
    exact ((validAnalysisShape_eq_true_iff j).1 hv).1
  · simp [analyzeResume, Bool.not_eq_true] at hv
    simp [analyzeResume, hv] at h

/-- Witness for C7 (amended), at the score-150 reply. -/
theorem C7_amended_numeric_score_witness :
    ∃ q, getField jsonScore150 "relevancyScore" = some (.num q) :=
  C7_amended_numeric_score jsonScore150 jsonScore150 rfl

/-- C10: every failure inside `analyzeResume` — a rejected API call, an
unparseable reply, or a reply failing the shape validation — reaches the
caller as the same fixed message, so the caller cannot distinguish them. -/
theorem C10_single_failure_message :
    (∀ reply m, analyzeResume reply = .error m → m = analysisFailureMessage) ∧
    analyzeResume .apiFailure = .error analysisFailureMessage ∧
    analyzeResume .unparseable = .error analysisFailureMessage ∧
    (∀ j, validAnalysisShape j = false →
        analyzeResume (.parsed j) = .error analysisFailureMessage) := by
  refine ⟨?_, rfl, rfl, ?_⟩
  · intro reply m h
    cases reply with
    | apiFailure => injection h with h'; exact h'.symm
    | unparseable => injection h with h'; exact h'.symm
    | parsed j =>
      by_cases hv : validAnalysisShape j <;> simp [analyzeResume, hv] at h
      exact h.symm
  · intro j hv
    simp [analyzeResume, hv]

/-- Witness for C10: a shape-invalid reply (the empty object) and an API
failure produce the identical message. -/
theorem C10_single_failure_message_witness :
    analyzeResume (.parsed (.obj [])) = .error analysisFailureMessage ∧
    analyzeResume .apiFailure = .error analysisFailureMessage :=
  ⟨C10_single_failure_message.2.2.2 (.obj []) rfl, C10_single_failure_message.2.1⟩

/-- C3: every failure of the AI name extraction — rejected call, unparseable
reply, or empty extracted name — makes `extractCandidateName` throw, and the
resolver falls back silently to the original filename; no error propagates
(the resolver's result type carries no failure). -/
theorem C3_name_extraction_fallback :
    (∀ filename, resolveDisplayName (extractCandidateName .apiFailure) filename = filename) ∧
    (∀ filename, resolveDisplayName (extractCandidateName .unparseable) filename = filename) ∧
    (∀ j filename, getField j "fullName" = some (.str "") →
        resolveDisplayName (extractCandidateName (.parsed j)) filename = filename) ∧
    (∀ reply filename m, extractCandidateName reply = .error m →
        resolveDisplayName (extractCandidateName reply) filename = filename) := by
  refine ⟨fun _ => rfl, fun _ => rfl, ?_, ?_⟩
  · intro j filename h
    simp [extractCandidateName, h, resolveDisplayName]
  · intro reply filename m h
    rw [h]
    rfl

/-- Witness for C3: fallback at a failed call and at a reply with an empty
`fullName`. -/
theorem C3_name_extraction_fallback_witness :
    resolveDisplayName (extractCandidateName .apiFailure) "resume.pdf" = "resume.pdf" ∧
    resolveDisplayName (extractCandidateName (.parsed (.obj [("fullName", .str "")])))
      "resume.pdf" = "resume.pdf" :=
  ⟨C3_name_extraction_fallback.1 "resume.pdf",
   C3_name_extraction_fallback.2.2.1 (.obj [("fullName", .str "")]) "resume.pdf" rfl⟩

/-! ### De-duplication (C2): decimal rendering and freshness -/

lemma digitsGo_val : ∀ fuel n, n < fuel → digitsVal (digitsGo fuel n) = n := by
  intro fuel
  induction fuel with
  | zero => intro n h; omega
  | succ f ih =>
    intro n h
    rw [digitsGo]
    by_cases h10 : n < 10
    · simp [h10, digitsVal]
    · have hlt : n / 10 < f := by omega
      simp only [h10, if_false]
      have hv := ih (n / 10) hlt
      simp [digitsVal, List.foldl_append] at hv ⊢
      omega

lemma natDigits_val (n : Nat) : digitsVal (natDigits n) = n :=
  digitsGo_val (n + 1) n (Nat.lt_succ_self n)

lemma natDigits_inj {n m : Nat} (h : natDigits n = natDigits m) : n = m := by
  have hn := natDigits_val n
  have hm := natDigits_val m
  rw [h] at hn
  omega

lemma digitsGo_lt10 : ∀ fuel n d, d ∈ digitsGo fuel n → d < 10 := by
  intro fuel
  induction fuel with
  | zero => intro n d h; simp [digitsGo] at h
  | succ f ih =>
    intro n d h
    rw [digitsGo] at h
    by_cases h10 : n < 10
    · simp [h10] at h; omega
    · simp [h10] at h
      rcases h with h | h
      · exact ih _ _ h
      · omega

lemma digitChar_inj {a b : Nat} (ha : a < 10) (hb : b < 10)
    (h : digitChar a = digitChar b) : a = b := by
  interval_cases a <;> interval_cases b <;> simp_all [digitChar]

lemma map_digitChar_inj : ∀ l1 l2 : List Nat, (∀ d ∈ l1, d < 10) → (∀ d ∈ l2, d < 10) →
    l1.map digitChar = l2.map digitChar → l1 = l2 := by
  intro l1
  induction l1 with
  | nil => intro l2 _ _ h; cases l2 <;> simp_all
  | cons a as ih =>
    intro l2 h1 h2 h
    cases l2 with
    | nil => simp at h
    | cons b bs =>
      simp only [List.map_cons, List.cons.injEq] at h
      have hab : a = b := digitChar_inj (h1 a (by simp)) (h2 b (by simp)) h.1
      have hrest : as = bs :=
        ih bs (fun d hd => h1 d (by simp [hd])) (fun d hd => h2 d (by simp [hd])) h.2
      simp [hab, hrest]

lemma natToDecimal_inj {n m : Nat} (h : natToDecimal n = natToDecimal m) : n = m := by
  have hd : (natDigits n).map digitChar = (natDigits m).map digitChar :=
    congrArg String.data h
  exact natDigits_inj (map_digitChar_inj _ _
    (fun d hd' => digitsGo_lt10 (n + 1) n d hd')
    (fun d hd' => digitsGo_lt10 (m + 1) m d hd') hd)

lemma string_append_left_cancel {a b c : String} (h : a ++ b = a ++ c) : b = c := by
  have hd : a.data ++ b.data = a.data ++ c.data := by
    have h1 := congrArg String.data h
    simpa [String.data_append] using h1
  have := List.append_cancel_left hd
  cases b; cases c; simp_all

lemma string_append_right_cancel {a b c : String} (h : a ++ c = b ++ c) : a = b := by
  have hd : a.data ++ c.data = b.data ++ c.data := by
    have h1 := congrArg String.data h
    simpa [String.data_append] using h1
  have := List.append_cancel_right hd
  cases a; cases b; simp_all

lemma addCounter_inj {base : String} {i j : Nat} (h : addCounter base i = addCounter base j) :
    i = j := by
  rw [addCounter, addCounter] at h
  have h1 : " (" ++ natToDecimal i ++ ")" = " (" ++ natToDecimal j ++ ")" := by
    have hassoc1 : base ++ " (" ++ natToDecimal i ++ ")"
        = base ++ (" (" ++ natToDecimal i ++ ")") := by
      simp [String.append_assoc]
    have hassoc2 : base ++ " (" ++ natToDecimal j ++ ")"
        = base ++ (" (" ++ natToDecimal j ++ ")") := by
      simp [String.append_assoc]
    exact string_append_left_cancel (hassoc1 ▸ hassoc2 ▸ h)
  have h2 : " (" ++ natToDecimal i = " (" ++ natToDecimal j :=
    string_append_right_cancel h1
  exact natToDecimal_inj (string_append_left_cancel h2)

lemma contains_true_iff (l : List String) (a : String) : l.contains a = true ↔ a ∈ l :=
  List.elem_iff

lemma contains_false_iff (l : List String) (a : String) : l.contains a = false ↔ a ∉ l := by
  constructor
  · intro h hm
    rw [(contains_true_iff l a).mpr hm] at h
    exact Bool.noConfusion h
  · intro h
    cases hc : l.contains a
    · rfl
    · exact absurd ((contains_true_iff l a).mp hc) h

lemma firstFresh_not_mem (seen : List String) (base : String) :
    ∀ fuel k, (∃ j, k ≤ j ∧ j < k + fuel ∧ seen.contains (addCounter base j) = false) →
      seen.contains (firstFresh seen base fuel k) = false := by
  intro fuel
  induction fuel with
  | zero => intro k ⟨j, h1, h2, _⟩; omega
  | succ f ih =>
    intro k ⟨j, h1, h2, h3⟩
    rw [firstFresh]
    by_cases hk : seen.contains (addCounter base k) = true
    · rw [if_pos hk]
      apply ih
      have hjk : j ≠ k := by
        intro he
        rw [he] at h3
        rw [h3] at hk
        exact Bool.noConfusion hk
      exact ⟨j, by omega, by omega, h3⟩
    · rw [if_neg hk]
      simpa using hk

lemma counters_fresh_exists (seen : List String) (base : String) :
    ∃ j, 1 ≤ j ∧ j < 1 + (seen.length + 1) ∧ seen.contains (addCounter base j) = false := by
  by_contra hall
  push_neg at hall
  have hmem : ∀ j, 1 ≤ j → j < seen.length + 2 → addCounter base j ∈ seen := by
    intro j h1 h2
    have hne := hall j h1 (by omega)
    have hb : seen.contains (addCounter base j) = true := by
      cases hc : seen.contains (addCounter base j)
      · exact absurd hc hne
      · rfl
    exact (contains_true_iff _ _).mp hb
  have hsub : ((List.range (seen.length + 1)).map (fun i => addCounter base (i + 1))) ⊆ seen := by
    intro x hx
    simp only [List.mem_map, List.mem_range] at hx
    obtain ⟨i, hi, rfl⟩ := hx
    exact hmem (i + 1) (by omega) (by omega)
  have hnd : ((List.range (seen.length + 1)).map (fun i => addCounter base (i + 1))).Nodup := by
    apply List.Nodup.map
    · intro a b hab
      have := addCounter_inj hab
      omega
    · exact List.nodup_range _
  have hlen := (List.Nodup.subperm hnd hsub).length_le
  simp at hlen

lemma resolveDedup_not_mem (seen : List String) (name : String) :
    seen.contains (resolveDedup seen name) = false := by
  rw [resolveDedup]
  by_cases h : seen.contains name = true
  · rw [if_pos h]
    exact firstFresh_not_mem seen name (seen.length + 1) 1 (counters_fresh_exists seen name)
  · rw [if_neg h]
    simpa using h

lemma firstFresh_shape (seen : List String) (base : String) :
    ∀ fuel k, ∃ j, k ≤ j ∧ firstFresh seen base fuel k = addCounter base j := by
  intro fuel
  induction fuel with
  | zero => intro k; exact ⟨k, Nat.le_refl k, rfl⟩
  | succ f ih =>
    intro k
    rw [firstFresh]
    by_cases hk : seen.contains (addCounter base k) = true
    · rw [if_pos hk]
      obtain ⟨j, hj, he⟩ := ih (k + 1)
      exact ⟨j, by omega, he⟩
    · rw [if_neg hk]
      exact ⟨k, Nat.le_refl k, rfl⟩

lemma dedupGo_nodup : ∀ names seen, (dedupGo seen names).Nodup ∧
    ∀ x ∈ dedupGo seen names, seen.contains x = false := by
  intro names
  induction names with
  | nil => intro seen; simp [dedupGo]
  | cons n rest ih =>
    intro seen
    rw [dedupGo]
    obtain ⟨ihnd, ihfresh⟩ := ih (seen ++ [resolveDedup seen n])
    constructor
    · refine List.nodup_cons.mpr ⟨?_, ihnd⟩
      intro hmem
      have hfr := ihfresh _ hmem
      rw [contains_false_iff] at hfr
      exact hfr (List.mem_append.mpr (Or.inr (by simp)))
    · intro x hx
      rcases List.mem_cons.mp hx with rfl | hx'
      · exact resolveDedup_not_mem seen n
      · have hfr := ihfresh x hx'
        rw [contains_false_iff] at hfr ⊢
        intro hmem
        exact hfr (List.mem_append.mpr (Or.inl hmem))

/-- C2 (spec-modelled): the de-duplication pass processes candidates in
order; an unseen name is kept, a name already seen gets a parenthesized
counter appended until it is unique against the names seen so far, and the
result is recorded as seen — hence the output names are pairwise distinct,
and `["Ann", "Ann", "Ann"]` resolves to `["Ann", "Ann (1)", "Ann (2)"]`. -/
theorem C2_name_deduplication :
    dedupNames ["Ann", "Ann", "Ann"] = ["Ann", "Ann (1)", "Ann (2)"] ∧
    (∀ names, (dedupNames names).Nodup) ∧
    (∀ seen name, seen.contains name = false → resolveDedup seen name = name) ∧
    (∀ seen name, seen.contains name = true →
        (∃ k, 1 ≤ k ∧ resolveDedup seen name = addCounter name k) ∧
        seen.contains (resolveDedup seen name) = false) := by
  refine ⟨rfl, fun names => (dedupGo_nodup names []).1, ?_, ?_⟩
  · intro seen name h
    rw [resolveDedup, if_neg]
    rw [h]
    exact Bool.noConfusion
  · intro seen name h
    refine ⟨?_, resolveDedup_not_mem seen name⟩
    rw [resolveDedup, if_pos h]
    exact firstFresh_shape seen name (seen.length + 1) 1

/-- Witness for C2: an unseen name passes through, a seen name gets a
counter appended. -/
theorem C2_name_deduplication_witness :
    resolveDedup ["Ann"] "Bob" = "Bob" ∧
    (∃ k, 1 ≤ k ∧ resolveDedup ["Ann"] "Ann" = addCounter "Ann" k) :=
  ⟨C2_name_deduplication.2.2.1 ["Ann"] "Bob" rfl,
   (C2_name_deduplication.2.2.2 ["Ann"] "Ann" rfl).1⟩

/-! ### Generic lemmas on `updateById`, `findById` and update folds -/

lemma findById_nil (x : String) : findById [] x = none := rfl

lemma updateById_id_map (recs : List ResumeRec) (i : String) (f : ResumeRec → ResumeRec)
    (hpres : ∀ r, (f r).id = r.id) :
    (updateById recs i f).map (fun r => r.id) = recs.map (fun r => r.id) := by
  induction recs with
  | nil => rfl
  | cons r rest ih =>
    simp only [updateById, List.map_cons] at ih ⊢
    by_cases hri : r.id = i <;> simp [hri, hpres, ih]

lemma findById_updateById (recs : List ResumeRec) (i : String) (f : ResumeRec → ResumeRec)
    (hpres : ∀ r, (f r).id = r.id) (x : String) :
    findById (updateById recs i f) x =
      if i = x then (findById recs x).map f else findById recs x := by
  induction recs with
  | nil => by_cases hix : i = x <;> simp [findById, updateById, hix]
  | cons r rest ih =>
    simp only [findById, updateById, List.map_cons] at ih ⊢
    by_cases hri : r.id = i
    · rw [if_pos hri]
      by_cases hix : i = x
      · rw [List.find?_cons_of_pos _ (by simp [hpres, hri, hix]),
            List.find?_cons_of_pos _ (by simp [hri, hix]), if_pos hix]
        rfl
      · rw [List.find?_cons_of_neg _ (by simp [hpres, hri]; exact hix),
            List.find?_cons_of_neg _ (by simp [hri]; exact hix), if_neg hix]
        rw [if_neg hix] at ih
        exact ih
    · rw [if_neg hri]
      by_cases hrx : r.id = x
      · have hix : ¬ i = x := fun h => hri (h ▸ hrx)
        rw [List.find?_cons_of_pos _ (by simp [hrx]),
            List.find?_cons_of_pos _ (by simp [hrx]), if_neg hix]
      · rw [List.find?_cons_of_neg _ (by simp [hrx]),
            List.find?_cons_of_neg _ (by simp [hrx])]
        exact ih

lemma updateById_comp (recs : List ResumeRec) (i : String) (f g : ResumeRec → ResumeRec)
    (hg : ∀ r, (g r).id = r.id) :
    updateById (updateById recs i g) i f = updateById recs i (fun x => f (g x)) := by
  simp only [updateById, List.map_map]
  apply List.map_congr_left
  intro r _
  by_cases hri : r.id = i
  · simp [Function.comp, hri, hg]
  · simp [Function.comp, hri]

lemma foldl_congr_fn {β α : Type} (l : List α) (b : β) (f g : β → α → β)
    (h : ∀ b a, a ∈ l → f b a = g b a) : l.foldl f b = l.foldl g b := by
  induction l generalizing b with
  | nil => rfl
  | cons a rest ih =>
    simp only [List.foldl_cons]
    rw [h b a (by simp)]
    exact ih _ (fun b' a' ha' => h b' a' (by simp [ha']))

lemma findById_foldl_notMem {α : Type} (step : List ResumeRec → α → List ResumeRec)
    (keyOf : α → String) (F : α → ResumeRec → ResumeRec)
    (hstep : ∀ recs a, step recs a = updateById recs (keyOf a) (F a))
    (hpres : ∀ a x, (F a x).id = x.id) :
    ∀ (l : List α) (recs : List ResumeRec) (x : String), (∀ a ∈ l, keyOf a ≠ x) →
      findById (l.foldl step recs) x = findById recs x := by
  intro l
  induction l with
  | nil => intro recs x _; rfl
  | cons a rest ih =>
    intro recs x h
    simp only [List.foldl_cons]
    rw [ih _ x (fun b hb => h b (by simp [hb]))]
    rw [hstep, findById_updateById _ _ _ (hpres a) x]
    rw [if_neg (h a (by simp))]

lemma findById_foldl_mem {α : Type} (step : List ResumeRec → α → List ResumeRec)
    (keyOf : α → String) (F : α → ResumeRec → ResumeRec)
    (hstep : ∀ recs a, step recs a = updateById recs (keyOf a) (F a))
    (hpres : ∀ a x, (F a x).id = x.id) :
    ∀ (l : List α) (recs : List ResumeRec) (a : α), (l.map keyOf).Nodup → a ∈ l →
      findById (l.foldl step recs) (keyOf a) = (findById recs (keyOf a)).map (F a) := by
  intro l
  induction l with
  | nil => intro recs a _ ha; simp at ha
  | cons b rest ih =>
    intro recs a hnd ha
    simp only [List.map_cons, List.nodup_cons] at hnd
    rcases List.mem_cons.mp ha with rfl | ha'
    · simp only [List.foldl_cons]
      rw [findById_foldl_notMem step keyOf F hstep hpres rest _ (keyOf a)
        (fun c hc he => hnd.1 (he ▸ List.mem_map_of_mem keyOf hc))]
      rw [hstep, findById_updateById _ _ _ (hpres a) (keyOf a)]
      rw [if_pos rfl]
    · have hne : keyOf b ≠ keyOf a := by
        intro he
        exact hnd.1 (he ▸ List.mem_map_of_mem keyOf ha')
      simp only [List.foldl_cons]
      rw [ih _ a hnd.2 ha']
      rw [hstep, findById_updateById _ _ _ (hpres b) (keyOf a)]
      rw [if_neg hne]

lemma ids_foldl_upd {α : Type} (step : List ResumeRec → α → List ResumeRec)
    (keyOf : α → String) (F : α → ResumeRec → ResumeRec)
    (hstep : ∀ recs a, step recs a = updateById recs (keyOf a) (F a))
    (hpres : ∀ a x, (F a x).id = x.id) :
    ∀ (l : List α) (recs : List ResumeRec),
      (l.foldl step recs).map (fun r => r.id) = recs.map (fun r => r.id) := by
  intro l
  induction l with
  | nil => intro recs; rfl
  | cons a rest ih =>
    intro recs
    simp only [List.foldl_cons]
    rw [ih, hstep]
    exact updateById_id_map _ _ _ (hpres a)

lemma findById_of_mem_nodup (recs : List ResumeRec) (r : ResumeRec)
    (hnd : (recs.map (fun r => r.id)).Nodup) (hr : r ∈ recs) :
    findById recs r.id = some r := by
  induction recs with
  | nil => simp at hr
  | cons b rest ih =>
    simp only [List.map_cons, List.nodup_cons] at hnd
    rcases List.mem_cons.mp hr with rfl | hr'
    · simp [findById, List.find?_cons]
    · have hne : b.id ≠ r.id := by
        intro he
        exact hnd.1 (he ▸ List.mem_map_of_mem _ hr')
      rw [findById, List.find?_cons_of_neg _ (by simp [hne])]
      exact ih hnd.2 hr'

lemma findById_isSome_of_mem_ids (recs : List ResumeRec) (x : String)
    (h : x ∈ recs.map (fun r => r.id)) : ∃ rr, findById recs x = some rr := by
  induction recs with
  | nil => simp at h
  | cons b rest ih =>
    rcases List.mem_cons.mp h with he | h'
    · exact ⟨b, by rw [findById, List.find?_cons_of_pos _ (by simp [he])]⟩
    · by_cases hbx : b.id = x
      · exact ⟨b, by rw [findById, List.find?_cons_of_pos _ (by simp [hbx])]⟩
      · obtain ⟨rr, hrr⟩ := ih h'
        exact ⟨rr, by rw [findById, List.find?_cons_of_neg _ (by simp [hbx])]; exact hrr⟩

/-! ### Chunking lemmas -/

lemma flatten_chunksOf : ∀ l : List ResumeRec, (chunksOf l).flatten = l := by
  intro l
  induction l using chunksOf.induct <;> simp_all [chunksOf]

lemma chunksOf_length_le : ∀ (l : List ResumeRec), ∀ c ∈ chunksOf l, c.length ≤ 5 := by
  intro l
  induction l using chunksOf.induct <;> intro c hc <;> simp_all [chunksOf]
  rcases hc with rfl | hc
  · simp
  · exact (by assumption : ∀ c ∈ _, c.length ≤ 5) c hc

lemma chunksOf_sublist : ∀ (l : List ResumeRec), ∀ c ∈ chunksOf l, List.Sublist c l := by
  intro l
  induction l using chunksOf.induct <;> intro c hc <;> simp_all [chunksOf]
  case case6 a b c' d e rest ih =>
    rcases hc with rfl | hc
    · exact List.Sublist.cons₂ _ (List.Sublist.cons₂ _ (List.Sublist.cons₂ _
        (List.Sublist.cons₂ _ (List.Sublist.cons₂ _ (List.nil_sublist rest)))))
    · refine List.Sublist.trans (ih c hc) ?_
      refine List.sublist_cons_of_sublist _ ?_
      refine List.sublist_cons_of_sublist _ ?_
      refine List.sublist_cons_of_sublist _ ?_
      refine List.sublist_cons_of_sublist _ ?_
      exact List.sublist_cons_self e rest

lemma chunksOf_twelve : ∀ (l : List ResumeRec), l.length = 12 →
    (chunksOf l).map List.length = [5, 5, 2] := by
  intro l hl
  rcases l with _ | ⟨a1, _ | ⟨a2, _ | ⟨a3, _ | ⟨a4, _ | ⟨a5, _ | ⟨a6, _ | ⟨a7, _ | ⟨a8, _ | ⟨a9, _ | ⟨a10, _ | ⟨a11, _ | ⟨a12, rest⟩⟩⟩⟩⟩⟩⟩⟩⟩⟩⟩⟩
  all_goals simp only [List.length_cons, List.length_nil] at hl
  all_goals try omega
  have hrest : rest = [] := List.length_eq_zero.mp (by omega)
  subst hrest
  rfl

/-! ### Analysis-stage characterization -/

lemma applyOutcomePatch_id (o : AnalysisOutcome) (x : ResumeRec) :
    (applyOutcomePatch o x).id = x.id := by
  cases o <;> rfl

lemma succList_map_eq (outcome : ResumeRec → AnalysisOutcome) (batch : List ResumeRec) :
    (batch.filterMap (fun r =>
        match outcome r with
        | .fulfilled v => some (r, v)
        | .rejected _ => none)).map (fun p => (valueName p.2, p.2))
      = successResults outcome batch := by
  induction batch with
  | nil => rfl
  | cons r rest ih =>
    rw [successResults] at ih ⊢
    cases ho : outcome r <;> simp [List.filterMap_cons, ho, ih]

lemma succList_fst_mem (outcome : ResumeRec → AnalysisOutcome) (batch : List ResumeRec)
    (p : ResumeRec × Json)
    (hp : p ∈ batch.filterMap (fun r =>
        match outcome r with
        | .fulfilled v => some (r, v)
        | .rejected _ => none)) :
    p.1 ∈ batch ∧ outcome p.1 = .fulfilled p.2 := by
  rcases List.mem_filterMap.mp hp with ⟨r, hr, he⟩
  cases ho : outcome r <;> rw [ho] at he
  · injection he with he'
    subst he'
    exact ⟨hr, ho⟩
  · exact Option.noConfusion he

lemma failList_fst_mem (outcome : ResumeRec → AnalysisOutcome) (batch : List ResumeRec)
    (p : ResumeRec × Option String)
    (hp : p ∈ batch.filterMap (fun r =>
        match outcome r with
        | .fulfilled _ => none
        | .rejected m => some (r, m))) :
    p.1 ∈ batch ∧ outcome p.1 = .rejected p.2 := by
  rcases List.mem_filterMap.mp hp with ⟨r, hr, he⟩
  cases ho : outcome r <;> rw [ho] at he
  · exact Option.noConfusion he
  · injection he with he'
    subst he'
    exact ⟨hr, ho⟩

lemma processAnalysisBatch_results (outcome : ResumeRec → AnalysisOutcome) (st : OrchState)
    (batch : List ResumeRec) :
    (processAnalysisBatch outcome st batch).results
      = st.results ++ successResults outcome batch := by
  rw [processAnalysisBatch]
  simp only [succList_map_eq]

lemma processAnalysisBatch_ids (outcome : ResumeRec → AnalysisOutcome) (st : OrchState)
    (batch : List ResumeRec) :
    (processAnalysisBatch outcome st batch).recs.map (fun r => r.id)
      = st.recs.map (fun r => r.id) := by
  rw [processAnalysisBatch]
  simp only
  rw [ids_foldl_upd (fun recs (p : ResumeRec × Option String) => updateById recs p.1.id (applyFailure p.2))
    (fun p => p.1.id) (fun p => applyFailure p.2) (fun _ _ => rfl) (fun _ _ => rfl)]
  rw [ids_foldl_upd (fun recs (p : ResumeRec × Json) => updateById recs p.1.id (applySuccess p.2))
    (fun p => p.1.id) (fun p => applySuccess p.2) (fun _ _ => rfl) (fun _ _ => rfl)]

lemma processAnalysisBatch_findById_notMem (outcome : ResumeRec → AnalysisOutcome)
    (st : OrchState) (batch : List ResumeRec) (x : String)
    (h : ∀ rr ∈ batch, rr.id ≠ x) :
    findById (processAnalysisBatch outcome st batch).recs x = findById st.recs x := by
  rw [processAnalysisBatch]
  simp only
  rw [findById_foldl_notMem (fun recs (p : ResumeRec × Option String) => updateById recs p.1.id (applyFailure p.2))
    (fun p => p.1.id) (fun p => applyFailure p.2) (fun _ _ => rfl)
    (fun _ _ => rfl) _ _ x (fun p hp => h p.1 (failList_fst_mem outcome batch p hp).1)]
  rw [findById_foldl_notMem (fun recs (p : ResumeRec × Json) => updateById recs p.1.id (applySuccess p.2))
    (fun p => p.1.id) (fun p => applySuccess p.2) (fun _ _ => rfl)
    (fun _ _ => rfl) _ _ x (fun p hp => h p.1 (succList_fst_mem outcome batch p hp).1)]

lemma succList_keys_sublist (outcome : ResumeRec → AnalysisOutcome) (batch : List ResumeRec) :
    List.Sublist ((batch.filterMap (fun r =>
        match outcome r with
        | .fulfilled v => some (r, v)
        | .rejected _ => none)).map (fun p => p.1.id)) (batch.map (fun r => r.id)) := by
  induction batch with
  | nil => simp
  | cons r rest ih =>
    rw [List.filterMap_cons]
    cases ho : outcome r
    · simp only
      rw [List.map_cons, List.map_cons]
      exact List.Sublist.cons₂ _ ih
    · simp only
      rw [List.map_cons]
      exact List.sublist_cons_of_sublist _ ih

lemma failList_keys_sublist (outcome : ResumeRec → AnalysisOutcome) (batch : List ResumeRec) :
    List.Sublist ((batch.filterMap (fun r =>
        match outcome r with
        | .fulfilled _ => none
        | .rejected m => some (r, m))).map (fun p => p.1.id)) (batch.map (fun r => r.id)) := by
  induction batch with
  | nil => simp
  | cons r rest ih =>
    rw [List.filterMap_cons]
    cases ho : outcome r
    · simp only
      rw [List.map_cons]
      exact List.sublist_cons_of_sublist _ ih
    · simp only
      rw [List.map_cons, List.map_cons]
      exact List.Sublist.cons₂ _ ih

lemma processAnalysisBatch_findById_mem (outcome : ResumeRec → AnalysisOutcome)
    (st : OrchState) (batch : List ResumeRec)
    (hnd : (batch.map (fun r => r.id)).Nodup) (r : ResumeRec) (hr : r ∈ batch) :
    findById (processAnalysisBatch outcome st batch).recs r.id
      = (findById st.recs r.id).map (applyOutcomePatch (outcome r)) := by
  rw [processAnalysisBatch]
  simp only
  cases ho : outcome r with
  | fulfilled v =>
    have hin : (r, v) ∈ batch.filterMap (fun r =>
        match outcome r with
        | .fulfilled v => some (r, v)
        | .rejected _ => none) :=
      List.mem_filterMap.mpr ⟨r, hr, by rw [ho]⟩
    rw [findById_foldl_notMem (fun recs (p : ResumeRec × Option String) => updateById recs p.1.id (applyFailure p.2))
      (fun p => p.1.id) (fun p => applyFailure p.2) (fun _ _ => rfl)
      (fun _ _ => rfl) _ _ r.id (fun p hp he => ?_)]
    · have hm := findById_foldl_mem (fun recs (p : ResumeRec × Json) => updateById recs p.1.id (applySuccess p.2))
        (fun p => p.1.id) (fun p => applySuccess p.2)
        (fun _ _ => rfl) (fun _ _ => rfl) _ st.recs (r, v)
        (List.Nodup.sublist (succList_keys_sublist outcome batch) hnd) hin
      rw [hm]
      rfl
    · obtain ⟨hmem, hout⟩ := failList_fst_mem outcome batch p hp
      have hpr : p.1 = r := List.inj_on_of_nodup_map hnd hmem hr he
      rw [hpr] at hout
      rw [hout] at ho
      exact AnalysisOutcome.noConfusion ho
  | rejected m =>
    have hin : (r, m) ∈ batch.filterMap (fun r =>
        match outcome r with
        | .fulfilled _ => none
        | .rejected m => some (r, m)) :=
      List.mem_filterMap.mpr ⟨r, hr, by rw [ho]⟩
    have hm := findById_foldl_mem (fun recs (p : ResumeRec × Option String) => updateById recs p.1.id (applyFailure p.2))
      (fun p => p.1.id) (fun p => applyFailure p.2)
      (fun _ _ => rfl) (fun _ _ => rfl) _
      ((batch.filterMap (fun r =>
          match outcome r with
          | .fulfilled v => some (r, v)
          | .rejected _ => none)).foldl
        (fun recs p => updateById recs p.1.id (applySuccess p.2)) st.recs)
      (r, m) (List.Nodup.sublist (failList_keys_sublist outcome batch) hnd) hin
    rw [hm]
    rw [findById_foldl_notMem (fun recs (p : ResumeRec × Json) => updateById recs p.1.id (applySuccess p.2))
      (fun p => p.1.id) (fun p => applySuccess p.2) (fun _ _ => rfl)
      (fun _ _ => rfl) _ _ r.id (fun p hp he => ?_)]
    · rfl
    · obtain ⟨hmem, hout⟩ := succList_fst_mem outcome batch p hp
      have hpr : p.1 = r := List.inj_on_of_nodup_map hnd hmem hr he
      rw [hpr] at hout
      rw [hout] at ho
      exact AnalysisOutcome.noConfusion ho

/-! ### Batch-loop characterization over a whole run -/

lemma foldBatches_results (outcome : ResumeRec → AnalysisOutcome) :
    ∀ (batches : List (List ResumeRec)) (st : OrchState),
      (batches.foldl (processAnalysisBatch outcome) st).results
        = st.results ++ (batches.map (successResults outcome)).flatten := by
  intro batches
  induction batches with
  | nil => intro st; simp
  | cons b rest ih =>
    intro st
    simp only [List.foldl_cons, List.map_cons, List.flatten_cons]
    rw [ih, processAnalysisBatch_results, List.append_assoc]

lemma foldBatches_ids (outcome : ResumeRec → AnalysisOutcome) :
    ∀ (batches : List (List ResumeRec)) (st : OrchState),
      (batches.foldl (processAnalysisBatch outcome) st).recs.map (fun r => r.id)
        = st.recs.map (fun r => r.id) := by
  intro batches
  induction batches with
  | nil => intro st; rfl
  | cons b rest ih =>
    intro st
    simp only [List.foldl_cons]
    rw [ih, processAnalysisBatch_ids]

lemma foldBatches_findById_notMem (outcome : ResumeRec → AnalysisOutcome) :
    ∀ (batches : List (List ResumeRec)) (st : OrchState) (x : String),
      (∀ b ∈ batches, ∀ rr ∈ b, rr.id ≠ x) →
      findById (batches.foldl (processAnalysisBatch outcome) st).recs x
        = findById st.recs x := by
  intro batches
  induction batches with
  | nil => intro st x _; rfl
  | cons b rest ih =>
    intro st x h
    simp only [List.foldl_cons]
    rw [ih _ x (fun b' hb' => h b' (by simp [hb']))]
    exact processAnalysisBatch_findById_notMem outcome st b x (h b (by simp))

lemma foldBatches_findById_mem (outcome : ResumeRec → AnalysisOutcome) :
    ∀ (batches : List (List ResumeRec)) (st : OrchState) (r : ResumeRec),
      (batches.flatten.map (fun r => r.id)).Nodup → r ∈ batches.flatten →
      findById (batches.foldl (processAnalysisBatch outcome) st).recs r.id
        = (findById st.recs r.id).map (applyOutcomePatch (outcome r)) := by
  intro batches
  induction batches with
  | nil => intro st r _ hr; simp at hr
  | cons b rest ih =>
    intro st r hnd hr
    simp only [List.flatten_cons] at hnd hr
    rw [List.map_append] at hnd
    rw [List.nodup_append] at hnd
    obtain ⟨hnd1, hnd2, hdisj⟩ := hnd
    simp only [List.foldl_cons]
    rcases List.mem_append.mp hr with hrb | hrrest
    · rw [foldBatches_findById_notMem outcome rest _ r.id ?_]
      · exact processAnalysisBatch_findById_mem outcome st b hnd1 r hrb
      · intro b' hb' rr hrr he
        exact hdisj (List.mem_map_of_mem _ hrb)
          (he ▸ List.mem_map_of_mem (fun r : ResumeRec => r.id)
            (List.mem_flatten.mpr ⟨b', hb', hrr⟩))
    · rw [ih _ r hnd2 hrrest]
      rw [processAnalysisBatch_findById_notMem outcome st b r.id ?_]
      intro rr hrr he
      exact hdisj (he ▸ List.mem_map_of_mem (fun r : ResumeRec => r.id) hrr)
        (List.mem_map_of_mem _ (List.mem_flatten.mpr
          (by
            rcases List.mem_flatten.mp hrrest with ⟨b', hb', hrb'⟩
            exact ⟨b', hb', hrb'⟩)))

lemma successResults_append (outcome : ResumeRec → AnalysisOutcome)
    (l1 l2 : List ResumeRec) :
    successResults outcome (l1 ++ l2)
      = successResults outcome l1 ++ successResults outcome l2 := by
  rw [successResults, successResults, successResults, List.filterMap_append]

lemma successResults_flatten (outcome : ResumeRec → AnalysisOutcome) :
    ∀ batches : List (List ResumeRec),
      (batches.map (successResults outcome)).flatten
        = successResults outcome batches.flatten := by
  intro batches
  induction batches with
  | nil => rfl
  | cons b rest ih =>
    simp only [List.map_cons, List.flatten_cons]
    rw [ih, successResults_append]

/-! ### `markAnalyzing` and the state `handleAnalyze` starts from -/

lemma readyOf_ids_nodup (recs : List ResumeRec)
    (hnd : (recs.map (fun r => r.id)).Nodup) :
    ((readyOf recs).map (fun r => r.id)).Nodup := by
  have hsub : List.Sublist (readyOf recs) recs := List.filter_sublist recs
  exact List.Nodup.sublist (hsub.map (fun r => r.id)) hnd

lemma markAnalyzing_ids (recs ready : List ResumeRec) :
    (markAnalyzing recs ready).map (fun r => r.id) = recs.map (fun r => r.id) := by
  rw [markAnalyzing]
  rw [ids_foldl_upd (fun acc (r : ResumeRec) => updateById acc r.id
      (fun x => { x with status := .analyzing }))
    (fun r => r.id) (fun _ x => { x with status := .analyzing }) (fun _ _ => rfl)
    (fun _ _ => rfl)]

lemma markAnalyzing_findById_mem (recs : List ResumeRec) (ready : List ResumeRec)
    (hnd : (ready.map (fun r => r.id)).Nodup) (r : ResumeRec) (hr : r ∈ ready) :
    findById (markAnalyzing recs ready) r.id
      = (findById recs r.id).map (fun x => { x with status := .analyzing }) := by
  rw [markAnalyzing]
  exact findById_foldl_mem (fun acc (r : ResumeRec) => updateById acc r.id
      (fun x => { x with status := .analyzing }))
    (fun r => r.id) (fun _ x => { x with status := .analyzing }) (fun _ _ => rfl)
    (fun _ _ => rfl) ready recs r hnd hr

lemma markAnalyzing_findById_notMem (recs : List ResumeRec) (ready : List ResumeRec)
    (x : String) (h : ∀ rr ∈ ready, rr.id ≠ x) :
    findById (markAnalyzing recs ready) x = findById recs x := by
  rw [markAnalyzing]
  exact findById_foldl_notMem (fun acc (r : ResumeRec) => updateById acc r.id
      (fun x => { x with status := .analyzing }))
    (fun r => r.id) (fun _ x => { x with status := .analyzing }) (fun _ _ => rfl)
    (fun _ _ => rfl) ready recs x h

lemma readyOf_mem (recs : List ResumeRec) (r : ResumeRec) (hr : r ∈ readyOf recs) :
    r ∈ recs ∧ r.status = .ready := by
  rw [readyOf] at hr
  have := List.mem_filter.mp hr
  exact ⟨this.1, by simpa using this.2⟩

lemma handleAnalyze_findById_ready (outcome : ResumeRec → AnalysisOutcome)
    (recs : List ResumeRec) (hnd : (recs.map (fun r => r.id)).Nodup)
    (r : ResumeRec) (hr : r ∈ readyOf recs) :
    findById (handleAnalyze outcome recs).recs r.id
      = some (applyOutcomePatch (outcome r) r) := by
  rw [handleAnalyze]
  have hready := readyOf_ids_nodup recs hnd
  have hflat : (chunksOf (readyOf recs)).flatten = readyOf recs := flatten_chunksOf _
  have hmem : r ∈ (chunksOf (readyOf recs)).flatten := by rw [hflat]; exact hr
  have hndflat : ((chunksOf (readyOf recs)).flatten.map (fun r => r.id)).Nodup := by
    rw [hflat]; exact hready
  rw [foldBatches_findById_mem outcome _ _ r hndflat hmem]
  show ((findById (markAnalyzing recs (readyOf recs)) r.id).map _) = _
  rw [markAnalyzing_findById_mem recs (readyOf recs) hready r hr]
  rw [findById_of_mem_nodup recs r hnd (readyOf_mem recs r hr).1]
  rw [Option.map_map]
  cases houtcome : outcome r <;> rfl

lemma statesAfter_ids (outcome : ResumeRec → AnalysisOutcome) (recs : List ResumeRec)
    (k : Nat) :
    (statesAfter outcome recs k).recs.map (fun r => r.id) = recs.map (fun r => r.id) := by
  rw [statesAfter]
  rw [foldBatches_ids]
  exact markAnalyzing_ids recs (readyOf recs)

lemma successResults_length_partition (outcome : ResumeRec → AnalysisOutcome) :
    ∀ l : List ResumeRec,
      l.length = (successResults outcome l).length
        + (l.filter (fun r => isRejected (outcome r))).length := by
  intro l
  induction l with
  | nil => rfl
  | cons r rest ih =>
    rw [successResults] at ih ⊢
    cases ho : outcome r <;>
      simp [List.filterMap_cons, List.filter_cons, ho, isRejected] at ih ⊢ <;> omega

/-- C5: the failure of any single analysis call never aborts the run — every
ready record is processed to completion according to its own outcome, failed
records are marked `error` with the underlying message attached, failures are
excluded from the aggregated result list but all records remain in the record
set, and the attempted/succeeded/failed counts partition at the end. -/
theorem C5_partial_failure_semantics (outcome : ResumeRec → AnalysisOutcome)
    (recs : List ResumeRec) (hnd : (recs.map (fun r => r.id)).Nodup) :
    (handleAnalyze outcome recs).results = successResults outcome (readyOf recs) ∧
    (handleAnalyze outcome recs).recs.map (fun r => r.id) = recs.map (fun r => r.id) ∧
    (∀ r ∈ readyOf recs,
      findById (handleAnalyze outcome recs).recs r.id
          = some (applyOutcomePatch (outcome r) r) ∧
      ((applyOutcomePatch (outcome r) r).status = .done ∨
        (applyOutcomePatch (outcome r) r).status = .error)) ∧
    (∀ r ∈ readyOf recs, ∀ m, outcome r = .rejected m →
      findById (handleAnalyze outcome recs).recs r.id
        = some { r with status := .error, error := some (m.getD "Analysis failed.") }) ∧
    (readyOf recs).length
      = (handleAnalyze outcome recs).results.length
        + ((readyOf recs).filter (fun r => isRejected (outcome r))).length := by
  have hres : (handleAnalyze outcome recs).results
      = successResults outcome (readyOf recs) := by
    rw [handleAnalyze, foldBatches_results]
    show [] ++ _ = _
    rw [List.nil_append, successResults_flatten, flatten_chunksOf]
  refine ⟨hres, ?_, ?_, ?_, ?_⟩
  · rw [handleAnalyze, foldBatches_ids]
    exact markAnalyzing_ids recs (readyOf recs)
  · intro r hr
    refine ⟨handleAnalyze_findById_ready outcome recs hnd r hr, ?_⟩
    cases outcome r
    · exact Or.inl rfl
    · exact Or.inr rfl
  · intro r hr m hm
    have := handleAnalyze_findById_ready outcome recs hnd r hr
    rw [hm] at this
    exact this
  · rw [hres]
    exact successResults_length_partition outcome (readyOf recs)

/-- Witness for C5 on twelve concrete ready records with one rejected call:
the theorem applies, and in particular the aggregated results are exactly the
successes. -/
theorem C5_partial_failure_semantics_witness :
    (handleAnalyze fixtureOutcome twelveReady).results
      = successResults fixtureOutcome (readyOf twelveReady) :=
  (C5_partial_failure_semantics fixtureOutcome twelveReady (by decide)).1

/-- C4: the analysis stage chunks the ready records into consecutive batches
of at most `BATCH_SIZE = 5` (twelve ready records give batches of sizes
5, 5, 2); a batch's calls all settle — every record of the batch is `done` or
`error` in the state reached after that batch — and the batch's successful
results are appended to the result list exposed to the presentation layer
before the next batch starts. -/
theorem C4_batching (outcome : ResumeRec → AnalysisOutcome) (recs : List ResumeRec)
    (hnd : (recs.map (fun r => r.id)).Nodup) :
    (∀ c ∈ chunksOf (readyOf recs), c.length ≤ 5) ∧
    (chunksOf (readyOf recs)).flatten = readyOf recs ∧
    ((readyOf recs).length = 12 →
      (chunksOf (readyOf recs)).map List.length = [5, 5, 2]) ∧
    (∀ k batch, (chunksOf (readyOf recs))[k]? = some batch →
      ((statesAfter outcome recs (k + 1)).results
          = (statesAfter outcome recs k).results ++ successResults outcome batch ∧
       ∀ r ∈ batch, ∃ r2,
          findById (statesAfter outcome recs (k + 1)).recs r.id = some r2 ∧
          (r2.status = .done ∨ r2.status = .error))) := by
  refine ⟨chunksOf_length_le (readyOf recs), flatten_chunksOf (readyOf recs),
    chunksOf_twelve (readyOf recs), ?_⟩
  intro k batch hk
  have hstep : statesAfter outcome recs (k + 1)
      = processAnalysisBatch outcome (statesAfter outcome recs k) batch := by
    rw [statesAfter, statesAfter, List.take_succ, hk]
    simp [List.foldl_append]
  have hbatchmem : batch ∈ chunksOf (readyOf recs) := List.getElem?_mem hk
  have hbatchsub : List.Sublist batch (readyOf recs) :=
    chunksOf_sublist (readyOf recs) batch hbatchmem
  have hbnd : (batch.map (fun r => r.id)).Nodup :=
    List.Nodup.sublist (hbatchsub.map (fun r => r.id)) (readyOf_ids_nodup recs hnd)
  constructor
  · rw [hstep, processAnalysisBatch_results]
  · intro r hr
    have hfind := processAnalysisBatch_findById_mem outcome
      (statesAfter outcome recs k) batch hbnd r hr
    have hsome : ∃ rr, findById (statesAfter outcome recs k).recs r.id = some rr := by
      apply findById_isSome_of_mem_ids
      rw [statesAfter_ids]
      exact List.mem_map_of_mem (fun r => r.id)
        ((readyOf_mem recs r (hbatchsub.mem hr)).1)
    obtain ⟨rr, hrr⟩ := hsome
    refine ⟨applyOutcomePatch (outcome r) rr, ?_, ?_⟩
    · rw [hstep, hfind, hrr]
      rfl
    · cases outcome r
      · exact Or.inl rfl
      · exact Or.inr rfl

/-- Witness for C4: twelve concrete ready records produce batch sizes
`[5, 5, 2]`. -/
theorem C4_batching_witness :
    (chunksOf (readyOf twelveReady)).map List.length = [5, 5, 2] :=
  (C4_batching fixtureOutcome twelveReady (by decide)).2.2.1 (by decide)

/-! ### Parsing-stage characterization and the duplicate-content scenario -/

lemma parseNet_id (snapshot : List ResumeRec) (extract : String → Except String String)
    (a x : ResumeRec) : (parseNet snapshot extract a x).id = x.id := by
  rw [parseNet.eq_def]
  cases he : extract a.id
  · rfl
  · simp only
    split <;> rfl

lemma parseOneStep_eq (snapshot : List ResumeRec) (extract : String → Except String String)
    (recs : List ResumeRec) (r : ResumeRec) :
    parseOneStep snapshot extract recs r
      = updateById recs r.id (parseNet snapshot extract r) := by
  cases he : extract r.id with
  | error m =>
    have hfun : parseNet snapshot extract r = fun x : ResumeRec =>
        { x with status := .error, error := some m } := by
      funext x
      rw [parseNet.eq_def, he]
    rw [parseOneStep.eq_def, he, hfun]
    exact updateById_comp recs r.id _ _ (fun x => rfl)
  | ok t =>
    rw [parseOneStep.eq_def, he]
    dsimp only
    by_cases hdup :
        snapshot.any (fun o => o.id ≠ r.id && o.text ≠ "" && o.text = t) = true
    · have hfun : parseNet snapshot extract r = fun x : ResumeRec =>
          { x with status := .error, error := some duplicateMessage } := by
        funext x
        rw [parseNet.eq_def, he]
        dsimp only
        rw [if_pos hdup]
      rw [if_pos hdup, hfun]
      exact updateById_comp recs r.id _ _ (fun x => rfl)
    · have hfun : parseNet snapshot extract r = fun x : ResumeRec =>
          { x with text := t, status := .ready } := by
        funext x
        rw [parseNet.eq_def, he]
        dsimp only
        rw [if_neg hdup]
      rw [if_neg hdup, hfun]
      exact updateById_comp recs r.id _ _ (fun x => rfl)

lemma parseNet_self (snapshot : List ResumeRec) (extract : String → Except String String)
    (r : ResumeRec) : parseNet snapshot extract r r = parseResult snapshot extract r := by
  rw [parseNet.eq_def, parseResult.eq_def]

lemma processBatchRun_findById (snapshot : List ResumeRec)
    (extract : String → Except String String)
    (hnd : (snapshot.map (fun r => r.id)).Nodup) (x : String) (r r' : ResumeRec)
    (hpre : findById snapshot x = some r)
    (hpost : findById (processBatchRun snapshot extract) x = some r') :
    r' = r ∨ (r.status = .queued ∧ r' = parseResult snapshot extract r) := by
  rw [processBatchRun] at hpost
  by_cases hin : ∃ rb ∈ (snapshot.filter
      (fun rr => rr.status = .queued)).take BATCH_SIZE, rb.id = x
  · obtain ⟨rb, hrb, hid⟩ := hin
    subst hid
    have hsubq : List.Sublist ((snapshot.filter
        (fun rr => rr.status = .queued)).take BATCH_SIZE) snapshot :=
      List.Sublist.trans (List.take_sublist _ _) (List.filter_sublist snapshot)
    have hbnd : (((snapshot.filter (fun rr => rr.status = .queued)).take
        BATCH_SIZE).map (fun r => r.id)).Nodup :=
      List.Nodup.sublist (hsubq.map (fun r => r.id)) hnd
    have hrbsnap : rb ∈ snapshot := hsubq.mem hrb
    have hfind : findById snapshot rb.id = some rb :=
      findById_of_mem_nodup snapshot rb hnd hrbsnap
    rw [hfind] at hpre
    injection hpre with hpre'
    subst hpre'
    have hmem := findById_foldl_mem (parseOneStep snapshot extract) (fun r => r.id)
      (parseNet snapshot extract) (fun recs a => parseOneStep_eq snapshot extract recs a)
      (parseNet_id snapshot extract) _ snapshot rb hbnd hrb
    have hcomb : Option.map (parseNet snapshot extract rb) (findById snapshot rb.id)
        = some r' := hmem.symm.trans hpost
    rw [hfind] at hcomb
    have hcomb2 : some (parseNet snapshot extract rb rb) = some r' := hcomb
    injection hcomb2 with h3
    refine Or.inr ⟨?_, ?_⟩
    · have := List.mem_filter.mp (List.mem_of_mem_take hrb)
      simpa using this.2
    · rw [← h3, parseNet_self]
  · push_neg at hin
    rw [findById_foldl_notMem (parseOneStep snapshot extract) (fun r => r.id)
      (parseNet snapshot extract) (fun recs a => parseOneStep_eq snapshot extract recs a)
      (parseNet_id snapshot extract) _ snapshot x hin] at hpost
    rw [hpre] at hpost
    injection hpost with hpost'
    exact Or.inl hpost'.symm

/-- C6 (evaluation of the bug): two distinct queued files whose extraction
yields identical text, parsed in the same batch run — the duplicate check
consults the effect's snapshot, in which the first file's text is still
empty, so the second file is marked `ready`, not `error`; when the first
file's text is already in the snapshot (parsed in an earlier run), the
duplicate IS detected. -/
theorem C6_duplicate_check_misses_same_batch :
    findById (processBatchRun dupSnapshot dupExtract) "b.pdf-200-2"
      = some { id := "b.pdf-200-2", status := .ready, text := "SAME RESUME TEXT",
               candidateName := "b.pdf", error := none } ∧
    findById (processBatchRun dupSnapshot dupExtract) "a.pdf-100-1"
      = some { id := "a.pdf-100-1", status := .ready, text := "SAME RESUME TEXT",
               candidateName := "a.pdf", error := none } ∧
    findById (processBatchRun dupSnapshotLater dupExtract) "b.pdf-200-2"
      = some { id := "b.pdf-200-2", status := .error, text := "",
               candidateName := "b.pdf", error := some duplicateMessage } :=
  ⟨rfl, rfl, rfl⟩

/-! ### Lifecycle monotonicity (C8) -/

lemma canReach_refl (s : FileStatus) : canReach s s = true := by
  cases s <;> rfl

lemma findById_append_left (recs extra : List ResumeRec) (x : String) (r : ResumeRec)
    (h : findById recs x = some r) : findById (recs ++ extra) x = some r := by
  rw [findById, List.find?_append]
  rw [findById] at h
  rw [h]
  rfl

lemma findById_cons_eq (b : ResumeRec) (recs : List ResumeRec) (x : String)
    (h : b.id = x) : findById (b :: recs) x = some b := by
  rw [findById, List.find?_cons_of_pos _ (by simp [h])]

lemma findById_cons_ne (b : ResumeRec) (recs : List ResumeRec) (x : String)
    (h : ¬ b.id = x) : findById (b :: recs) x = findById recs x := by
  rw [findById, List.find?_cons_of_neg _ (by simp [h])]
  rfl

lemma findById_filter_same (recs : List ResumeRec) (i : String) :
    findById (recs.filter (fun rr => rr.id ≠ i)) i = none := by
  induction recs with
  | nil => rfl
  | cons b rest ih =>
    by_cases hbi : b.id = i
    · rw [List.filter_cons_of_neg (by simp [hbi])]
      exact ih
    · rw [List.filter_cons_of_pos (by simp [hbi])]
      rw [findById_cons_ne _ _ _ hbi]
      exact ih

lemma findById_filter_other (recs : List ResumeRec) (i x : String) (hxi : ¬ x = i) :
    findById (recs.filter (fun rr => rr.id ≠ i)) x = findById recs x := by
  induction recs with
  | nil => rfl
  | cons b rest ih =>
    by_cases hbi : b.id = i
    · rw [List.filter_cons_of_neg (by simp [hbi]), ih,
        findById_cons_ne _ _ _ (fun he => hxi (he.symm.trans hbi))]
    · rw [List.filter_cons_of_pos (by simp [hbi])]
      by_cases hbx : b.id = x
      · rw [findById_cons_eq _ _ _ hbx, findById_cons_eq _ _ _ hbx]
      · rw [findById_cons_ne _ _ _ hbx, ih, findById_cons_ne _ _ _ hbx]

lemma findById_filter_ne (recs : List ResumeRec) (i x : String) :
    findById (recs.filter (fun rr => rr.id ≠ i)) x
      = if x = i then none else findById recs x := by
  by_cases hxi : x = i
  · rw [if_pos hxi, hxi]
    exact findById_filter_same recs i
  · rw [if_neg hxi]
    exact findById_filter_other recs i x hxi

lemma handleAnalyze_findById_cases (outcome : ResumeRec → AnalysisOutcome)
    (recs : List ResumeRec) (hnd : (recs.map (fun r => r.id)).Nodup)
    (x : String) (r r' : ResumeRec)
    (hpre : findById recs x = some r)
    (hpost : findById (handleAnalyze outcome recs).recs x = some r') :
    r' = r ∨ (r.status = .ready ∧ r' = applyOutcomePatch (outcome r) r) := by
  by_cases hx : ∃ rr ∈ readyOf recs, rr.id = x
  · obtain ⟨rr, hrr, hid⟩ := hx
    subst hid
    have hrrmem : rr ∈ recs := (readyOf_mem recs rr hrr).1
    have hfind : findById recs rr.id = some rr := findById_of_mem_nodup recs rr hnd hrrmem
    rw [hfind] at hpre
    injection hpre with hpre'
    subst hpre'
    have hready := handleAnalyze_findById_ready outcome recs hnd rr hrr
    rw [hready] at hpost
    injection hpost with hpost'
    exact Or.inr ⟨(readyOf_mem recs rr hrr).2, hpost'.symm⟩
  · push_neg at hx
    rw [handleAnalyze] at hpost
    rw [foldBatches_findById_notMem outcome _ _ x ?_] at hpost
    · have hmark : findById (analysisInit recs).recs x = findById recs x :=
        markAnalyzing_findById_notMem recs (readyOf recs) x hx
      rw [hmark, hpre] at hpost
      injection hpost with hpost'
      exact Or.inl hpost'.symm
    · intro b hb rr hrr
      exact hx rr ((chunksOf_sublist (readyOf recs) b hb).mem hrr)

/-- C8: across the record-set operations of the app — adding files, removing
a record, clearing, one parsing batch run, and one analysis run — a record's
status only ever moves forward along the lifecycle graph
`queued → parsing → (ready | error)`, `ready → analyzing → (done | error)`,
and a record whose status is terminal (`done` or `error`) is never changed
by any subsequent operation (removal deletes the record rather than moving
it backward). -/
theorem C8_status_monotone :
    (∀ (recs : List ResumeRec) (toAdd : List NewFile) (x : String) (r r' : ResumeRec),
      findById recs x = some r → findById (addResumeFiles recs toAdd) x = some r' →
      canReach r.status r'.status = true ∧
        (isTerminal r.status = true → r'.status = r.status)) ∧
    (∀ (recs : List ResumeRec) (i x : String) (r r' : ResumeRec),
      findById recs x = some r → findById (removeResume recs i) x = some r' →
      canReach r.status r'.status = true ∧
        (isTerminal r.status = true → r'.status = r.status)) ∧
    (∀ (recs : List ResumeRec) (x : String) (r r' : ResumeRec),
      findById recs x = some r → findById (clearResumes recs) x = some r' →
      canReach r.status r'.status = true ∧
        (isTerminal r.status = true → r'.status = r.status)) ∧
    (∀ (snapshot : List ResumeRec) (extract : String → Except String String),
      (snapshot.map (fun r => r.id)).Nodup →
      ∀ (x : String) (r r' : ResumeRec),
      findById snapshot x = some r →
      findById (processBatchRun snapshot extract) x = some r' →
      canReach r.status r'.status = true ∧
        (isTerminal r.status = true → r'.status = r.status)) ∧
    (∀ (outcome : ResumeRec → AnalysisOutcome) (recs : List ResumeRec),
      (recs.map (fun r => r.id)).Nodup →
      ∀ (x : String) (r r' : ResumeRec),
      findById recs x = some r →
      findById (handleAnalyze outcome recs).recs x = some r' →
      canReach r.status r'.status = true ∧
        (isTerminal r.status = true → r'.status = r.status)) := by
  refine ⟨?_, ?_, ?_, ?_, ?_⟩
  · intro recs toAdd x r r' hpre hpost
    rw [addResumeFiles] at hpost
    rw [findById_append_left recs _ x r hpre] at hpost
    injection hpost with h
    subst h
    exact ⟨canReach_refl r.status, fun _ => rfl⟩
  · intro recs i x r r' hpre hpost
    rw [removeResume] at hpost
    rw [findById_filter_ne recs i x] at hpost
    by_cases hxi : x = i
    · rw [if_pos hxi] at hpost
      exact Option.noConfusion hpost
    · rw [if_neg hxi, hpre] at hpost
      injection hpost with h
      subst h
      exact ⟨canReach_refl r.status, fun _ => rfl⟩
  · intro recs x r r' _ hpost
    exact Option.noConfusion hpost
  · intro snapshot extract hnd x r r' hpre hpost
    rcases processBatchRun_findById snapshot extract hnd x r r' hpre hpost with h | ⟨hq, h⟩
    · subst h
      exact ⟨canReach_refl _, fun _ => rfl⟩
    · subst h
      constructor
      · rw [hq]
        rfl
      · intro hterm
        rw [hq] at hterm
        exact Bool.noConfusion hterm
  · intro outcome recs hnd x r r' hpre hpost
    rcases handleAnalyze_findById_cases outcome recs hnd x r r' hpre hpost with h | ⟨hq, h⟩
    · subst h
      exact ⟨canReach_refl _, fun _ => rfl⟩
    · subst h
      constructor
      · rw [hq]
        cases outcome r <;> rfl
      · intro hterm
        rw [hq] at hterm
        exact Bool.noConfusion hterm

/-- Witness for C8: on the concrete twelve-record fixture, record `r1`
(status `ready`, fulfilled call) ends `done`, a lifecycle-forward move. -/
theorem C8_status_monotone_witness :
    canReach (readyRec "r1" "n1" "t1").status FileStatus.done = true ∧
    (isTerminal (readyRec "r1" "n1" "t1").status = true →
      FileStatus.done = (readyRec "r1" "n1" "t1").status) := by
  have h := C8_status_monotone.2.2.2.2 fixtureOutcome twelveReady (by decide)
    "r1" (readyRec "r1" "n1" "t1")
    { id := "r1", status := .done, text := "t1", candidateName := "n1", error := none }
    rfl rfl
  exact h

/-! ### URL ingestion error messages (C9) -/

lemma handleUrlsAdd_foldl (items : List UrlItem) :
    ∀ (acc : List (String × String)) (err : Option String),
      (items.foldl
        (fun acc item =>
          match item.outcome with
          | .okFile fn apiName => (acc.1 ++ [(fn, apiName.getD fn)], acc.2)
          | .failure e =>
              (acc.1, some ("Failed to fetch " ++ item.url ++ ": " ++ e.message)))
        (acc, err)).1 = acc ++ okFilesOf items := by
  induction items with
  | nil => intro acc err; simp [okFilesOf]
  | cons item rest ih =>
    intro acc err
    rw [okFilesOf] at ih ⊢
    cases ho : item.outcome with
    | okFile fn apiName =>
      simp only [List.foldl_cons, List.filterMap_cons, ho]
      rw [ih]
      simp
    | failure e =>
      simp only [List.foldl_cons, List.filterMap_cons, ho]
      rw [ih]

lemma handleUrlsAdd_files (items : List UrlItem) :
    (handleUrlsAdd items).1 = okFilesOf items := by
  rw [handleUrlsAdd]
  exact handleUrlsAdd_foldl items [] none

/-- C9 (counterexample): a resume-URL fetch rejected by the cross-origin
layer (the browser throws `TypeError: Failed to fetch` for both CORS blocks
and unreachable hosts) is surfaced by `handleUrlsAdd` as the raw
`'Failed to fetch {url}: Failed to fetch'` — a message that never mentions a
cross-origin policy, contradicting the claim for the resume ingestion path. -/
theorem C9_counterexample_resume_url_no_cors_hint :
    handleUrlsAdd [⟨"https://resume.example.com/r.pdf", .failure ⟨true, "Failed to fetch"⟩⟩]
      = ([], some "Failed to fetch https://resume.example.com/r.pdf: Failed to fetch") ∧
    strIncludes "Failed to fetch https://resume.example.com/r.pdf: Failed to fetch"
      "CORS" = false ∧
    strIncludes "Failed to fetch https://resume.example.com/r.pdf: Failed to fetch"
      "cross-origin" = false :=
  ⟨rfl, by decide, by decide⟩

/-- C9 (amended): only the job-description URL path distinguishes the
cross-origin case — a fetch rejection that is a `TypeError` whose message
contains `'Failed to fetch'` surfaces the CORS-mentioning message, distinct
from the non-success-HTTP-status message; resume-URL failures are surfaced
per URL without aborting the batch (every successfully fetched file is still
collected), but reuse the raw error text. -/
theorem C9_amended_cors_distinction :
    (∀ e : JsError, e.isTypeError = true → strIncludes e.message "Failed to fetch" = true →
        handleJdUrlAdd (.fetchReject e) = some corsMessage) ∧
    strIncludes corsMessage "CORS" = true ∧
    (∀ st, handleJdUrlAdd (.notOk st)
        = some ("Failed to fetch from URL: " ++ st ++ ".") ∧
      "Failed to fetch from URL: " ++ st ++ "." ≠ corsMessage) ∧
    (∀ items : List UrlItem, (handleUrlsAdd items).1 = okFilesOf items) := by
  refine ⟨?_, by decide, ?_, handleUrlsAdd_files⟩
  · intro e h1 h2
    rw [handleJdUrlAdd, jdCatchMessage, h1, h2]
    rfl
  · intro st
    constructor
    · rw [handleJdUrlAdd, jdCatchMessage]
      rfl
    · intro h
      have hd : (("Failed to fetch from URL: " ++ st ++ ".").data).head?
          = corsMessage.data.head? := by rw [h]
      have hd2 : (some 'F' : Option Char) = some 'C' := by
        have hsplit : ("Failed to fetch from URL: " ++ st ++ ".").data
            = "Failed to fetch from URL: ".data ++ st.data ++ ".".data := by
          simp [String.data_append]
        rw [hsplit] at hd
        exact hd
      injection hd2 with hd3
      exact absurd hd3 (by decide)

/-- Witness for C9 (amended): the browser's cross-origin rejection surfaces
the CORS message on the job-description path, and a 404 surfaces the
distinct generic message. -/
theorem C9_amended_cors_distinction_witness :
    handleJdUrlAdd (.fetchReject ⟨true, "Failed to fetch"⟩) = some corsMessage ∧
    handleJdUrlAdd (.notOk "Not Found") = some "Failed to fetch from URL: Not Found." :=
  ⟨C9_amended_cors_distinction.1 ⟨true, "Failed to fetch"⟩ rfl (by decide),
   (C9_amended_cors_distinction.2.2.1 "Not Found").1⟩
